import Mathlib

/-!
Verification of the task-management workers and the naming lint script.

Shallow embedding of the parts of the repository referenced by the claims:

* `src/use_cases/task_management/reminder_worker.py` — due-soon / overdue
  detection, scheduled reminder processing, task-event publishing;
* `src/use_cases/task_management/analytics_worker.py` — productivity
  statistics computation and the minimum-data threshold;
* `src/scripts/validate_naming.py` — the service-naming lint.

Datetimes are modelled as integers counting whole seconds (the UTC epoch
offset); Python's `int(x)` truncation toward zero on
`timedelta.total_seconds() / 60` is `Int.tdiv`, and `datetime.hour` of a
timestamp `t` is `(t / 3600) % 24` with floor-division semantics, matching
CPython.  Python floats produced by exact integer arithmetic are modelled
as rationals.
-/

/-! ## Settings (reminder_worker.py, class Settings) -/

/-- Setting `Settings.CHECK_INTERVAL_SECONDS` (reminder_worker.py line 51). -/
def CHECK_INTERVAL_SECONDS : Nat := 300

/-- Setting `Settings.DUE_SOON_MINUTES` (reminder_worker.py line 52). -/
def DUE_SOON_MINUTES : Int := 60

/-- Setting `Settings.OVERDUE_CHECK_MINUTES` (reminder_worker.py line 53). -/
def OVERDUE_CHECK_MINUTES : Nat := 1440

/-- Setting `Settings.REMINDER_RETRY_ATTEMPTS` (reminder_worker.py line 54). -/
def REMINDER_RETRY_ATTEMPTS : Nat := 3

/-- Setting `Settings.REMINDER_RETRY_DELAY` (reminder_worker.py line 55), seconds. -/
def REMINDER_RETRY_DELAY : Nat := 60

/-! ## `_publish_task_event` (reminder_worker.py lines 550-562)

The Python body builds a message and makes a single
`self.task_events_exchange.publish(...)` call inside `try/except`; an
exception is logged (`logger.error`) and the function returns, making no
further publish attempt.  We model the transport by the outcome of each
potential publish attempt (`publishOutcome n` is `true` when the `n`-th
attempt would succeed) and record the pair
(number of publish attempts actually made, whether a publish succeeded). -/

/-- Embeds `_publish_task_event`: exactly one publish attempt is made; a
failure is caught, logged and abandoned. -/
def publishTaskEvent (publishOutcome : Nat → Bool) : Nat × Bool :=
  (1, publishOutcome 0)

/-- Helper loop for `publishTaskEventSpecRetry`: `made` attempts already
made, `fuel` attempts still allowed. -/
def publishRetryAux (publishOutcome : Nat → Bool) : Nat → Nat → Nat × Bool
  | made, 0 => (made, false)
  | made, fuel + 1 =>
    if publishOutcome made then (made + 1, true)
    else publishRetryAux publishOutcome (made + 1) fuel

/-- Follows the claim's words (refinement reference, not source code):
"_publish_task_event re-attempts the publish, up to REMINDER_RETRY_ATTEMPTS
(3) attempts separated by REMINDER_RETRY_DELAY (60 seconds)": attempts are
repeated until one succeeds or `REMINDER_RETRY_ATTEMPTS` attempts were
made.  The delay between attempts has no observable effect in this model
beyond its configured value. -/
def publishTaskEventSpecRetry (publishOutcome : Nat → Bool) : Nat × Bool :=
  publishRetryAux publishOutcome 0 REMINDER_RETRY_ATTEMPTS

/-! ## `_process_due_soon_task` (reminder_worker.py lines 202-248)

The function is modelled as the ordered list of externally visible actions
it performs: publishing the `task.due_soon` event, sending the Telegram
notification, and setting the `due_soon_sent:{task.id}` Redis key.
`alreadySent` is the truthiness of `redis.get("due_soon_sent:{task.id}")`;
`due` and `now` are `task.due_date` and `datetime.utcnow()` in seconds. -/

/-- One externally visible action of `_process_due_soon_task`, in order. -/
inductive DueSoonAction where
  | publishDueSoon (dueInMinutes : Int)
  | notifyDueSoon (dueInMinutes : Int)
  | setDueSoonKey (expireSeconds : Int)
deriving DecidableEq, Repr

/-- Computes `minutes_until_due = int((due_date - now).total_seconds() / 60)`
(line 224); `int()` truncates toward zero. -/
def minutesUntilDue (due now : Int) : Int := (due - now).tdiv 60

/-- Embeds `_process_due_soon_task` as its ordered action trace. -/
def processDueSoonTask (alreadySent : Bool) (due now : Int) :
    List DueSoonAction :=
  if alreadySent then []
  else if minutesUntilDue due now ≤ DUE_SOON_MINUTES ∧
          0 < minutesUntilDue due now then
    [DueSoonAction.publishDueSoon (minutesUntilDue due now),
     DueSoonAction.notifyDueSoon (minutesUntilDue due now),
     DueSoonAction.setDueSoonKey
       (max (minutesUntilDue due now * 60 + 86400) 3600)]
  else []

/-! ## Claims C1, C2, C3 -/

/-- C1 (counterexample): With every publish attempt failing, the code
makes exactly 1 attempt while the retry behaviour described by the claim
would make `REMINDER_RETRY_ATTEMPTS = 3` attempts, so `_publish_task_event`
does not re-attempt failed publishes. -/
theorem publishTaskEvent_no_retry_counterexample :
    (publishTaskEvent (fun _ => false)).1 = 1 ∧
    (publishTaskEventSpecRetry (fun _ => false)).1 = REMINDER_RETRY_ATTEMPTS ∧
    publishTaskEvent (fun _ => false) ≠
      publishTaskEventSpecRetry (fun _ => false) := by
  refine ⟨rfl, rfl, ?_⟩
  decide

/-- C1 (amended): `_publish_task_event` makes exactly one publish
attempt for every outcome of the transport; when that single attempt fails
the event is abandoned unpublished.  `REMINDER_RETRY_ATTEMPTS` (3) and
`REMINDER_RETRY_DELAY` (60) are defined in `Settings` but unused by the
publish path. -/
theorem publishTaskEvent_single_attempt (publishOutcome : Nat → Bool) :
    (publishTaskEvent publishOutcome).1 = 1 ∧
    (publishOutcome 0 = false → (publishTaskEvent publishOutcome).2 = false) ∧
    REMINDER_RETRY_ATTEMPTS = 3 ∧ REMINDER_RETRY_DELAY = 60 := by
  refine ⟨rfl, ?_, rfl, rfl⟩
  intro h
  simpa [publishTaskEvent] using h

/-- Witness for `publishTaskEvent_single_attempt` at the all-failing
transport. -/
theorem publishTaskEvent_single_attempt_witness :
    (publishTaskEvent (fun _ => false)).2 = false :=
  (publishTaskEvent_single_attempt (fun _ => false)).2.1 rfl

/-- C2: Due-soon de-duplication: when the `due_soon_sent:{task.id}` key
is set, `_process_due_soon_task` performs no action at all (no event, no
notification); and whenever the key is set by the function, the setting
action carries expiry `max(minutes_until_due*60 + 86400, 3600)` and occurs
strictly after both the `task.due_soon` publish and the notification in the
action trace, so at most one due-soon notification is sent while the key is
present. -/
theorem processDueSoonTask_dedup (alreadySent : Bool) (due now : Int) :
    (alreadySent = true → processDueSoonTask alreadySent due now = []) ∧
    (∀ (i : Nat) (e : Int), (processDueSoonTask alreadySent due now)[i]? =
        some (DueSoonAction.setDueSoonKey e) →
      e = max (minutesUntilDue due now * 60 + 86400) 3600 ∧
      ∃ jp jn : Nat, jp < i ∧ jn < i ∧
        (processDueSoonTask alreadySent due now)[jp]? =
          some (DueSoonAction.publishDueSoon (minutesUntilDue due now)) ∧
        (processDueSoonTask alreadySent due now)[jn]? =
          some (DueSoonAction.notifyDueSoon (minutesUntilDue due now))) := by
  constructor
  · intro h
    simp [processDueSoonTask, h]
  · intro i e hget
    unfold processDueSoonTask at hget ⊢
    by_cases hs : alreadySent
    · simp [hs] at hget
    · simp only [hs, if_false, Bool.false_eq_true] at hget ⊢
      by_cases hw : minutesUntilDue due now ≤ DUE_SOON_MINUTES ∧
          0 < minutesUntilDue due now
      · simp only [hw, if_true] at hget ⊢
        match i, hget with
        | 2, hget =>
          refine ⟨by simpa using hget.symm, 0, 1, by omega, by omega, rfl, rfl⟩
      · simp [hw] at hget

/-- Witness for `processDueSoonTask_dedup`: with the key already set the
trace is empty, and in a concrete in-window run (due in 30 minutes) the
key-set action at index 2 carries expiry `max(30*60+86400, 3600) = 88200`
and is preceded by the publish and the notification. -/
theorem processDueSoonTask_dedup_witness :
    processDueSoonTask true 1800 0 = [] ∧
    (88200 = max (minutesUntilDue 1800 0 * 60 + 86400) 3600 ∧
      ∃ jp jn : Nat, jp < 2 ∧ jn < 2 ∧
        (processDueSoonTask false 1800 0)[jp]? =
          some (DueSoonAction.publishDueSoon (minutesUntilDue 1800 0)) ∧
        (processDueSoonTask false 1800 0)[jn]? =
          some (DueSoonAction.notifyDueSoon (minutesUntilDue 1800 0))) :=
  ⟨(processDueSoonTask_dedup true 1800 0).1 rfl,
   (processDueSoonTask_dedup false 1800 0).2 2 88200 (by decide)⟩

/-- C3: Due-soon detection window: with no prior `due_soon_sent` key,
`_process_due_soon_task` publishes the `task.due_soon` event (carrying
`due_in_minutes = minutes_until_due`), sends the notification and sets the
cache key exactly when `0 < minutes_until_due ≤ DUE_SOON_MINUTES (60)`;
outside that window it performs no action. -/
theorem processDueSoonTask_window (due now : Int) :
    (0 < minutesUntilDue due now ∧ minutesUntilDue due now ≤ DUE_SOON_MINUTES →
      processDueSoonTask false due now =
        [DueSoonAction.publishDueSoon (minutesUntilDue due now),
         DueSoonAction.notifyDueSoon (minutesUntilDue due now),
         DueSoonAction.setDueSoonKey
           (max (minutesUntilDue due now * 60 + 86400) 3600)]) ∧
    (¬(0 < minutesUntilDue due now ∧
        minutesUntilDue due now ≤ DUE_SOON_MINUTES) →
      processDueSoonTask false due now = []) := by
  constructor
  · intro h
    simp [processDueSoonTask, h.1, h.2]
  · intro h
    have h2 : ¬(minutesUntilDue due now ≤ DUE_SOON_MINUTES ∧
        0 < minutesUntilDue due now) := fun hc => h ⟨hc.2, hc.1⟩
    simp [processDueSoonTask, h2]

/-- Witness for `processDueSoonTask_window`: a task due in 30 minutes is in
the window (full trace produced); a task one hour past due is outside the
window (empty trace). -/
theorem processDueSoonTask_window_witness :
    processDueSoonTask false 1800 0 =
      [DueSoonAction.publishDueSoon 30, DueSoonAction.notifyDueSoon 30,
       DueSoonAction.setDueSoonKey 88200] ∧
    processDueSoonTask false 0 3600 = [] :=
  ⟨(processDueSoonTask_window 1800 0).1 (by decide),
   (processDueSoonTask_window 0 3600).2 (by decide)⟩

/-! ## `_process_overdue_task` (reminder_worker.py lines 250-302)

The Redis state for one task's `overdue_sent:{task.id}` key is modelled as
`Option (lastSent × expireAt)`: the stored ISO timestamp together with the
absolute expiry instant set by `setex(key, 86400, now)`.  A `GET` at time
`now` yields the stored value only while `now < expireAt`.  The 6-hour
anti-spam window of line 260 is 21600 seconds. -/

/-- Redis `GET overdue_sent:{task.id}` at time `now`, honouring the key's
expiry. -/
def readOverdueKey (st : Option (Int × Int)) (now : Int) : Option Int :=
  match st with
  | none => none
  | some (lastSent, expireAt) => if now < expireAt then some lastSent else none

/-- Computes `overdue_minutes = int((now - due_date).total_seconds() / 60)`
(line 275); `int()` truncates toward zero. -/
def overdueMinutes (now due : Int) : Int := (now - due).tdiv 60

/-- The tail of `_process_overdue_task` after the anti-spam guard: publish
the event, send the notification and store the current time with a 24-hour
expiry when `overdue_minutes > 0`, else do nothing.  Returns the new key
state and whether the notification was sent. -/
def overdueSendPart (st : Option (Int × Int)) (now due : Int) :
    Option (Int × Int) × Bool :=
  if 0 < overdueMinutes now due then (some (now, now + 86400), true)
  else (st, false)

/-- Embeds `_process_overdue_task` acting on the task's `overdue_sent` key
state at time `now`. -/
def processOverdueTask (st : Option (Int × Int)) (now due : Int) :
    Option (Int × Int) × Bool :=
  match readOverdueKey st now with
  | some lastSent =>
    if now - lastSent < 21600 then (st, false) else overdueSendPart st now due
  | none => overdueSendPart st now due

/-- The condition under which `_process_overdue_task` sends: the task is
strictly overdue and either no (unexpired) `overdue_sent` record exists or
the recorded last-sent time is at least 6 hours (21600 s) in the past. -/
def overdueSendCondition (st : Option (Int × Int)) (now due : Int) : Bool :=
  (match readOverdueKey st now with
   | none => true
   | some lastSent => decide (21600 ≤ now - lastSent)) &&
  decide (0 < overdueMinutes now due)

/-- One invocation of `_process_overdue_task` at check time `t`, threading
the key state and recording the send time when a notification goes out. -/
def runOverdueAux (due : Int) (st : Option (Int × Int)) :
    List Int → List Int
  | [] => []
  | t :: rest =>
    let r := processOverdueTask st t due
    if r.2 then t :: runOverdueAux due r.1 rest
    else runOverdueAux due r.1 rest

/-- The send times produced by repeatedly running `_process_overdue_task`
for one task at the given check times, starting with no `overdue_sent`
record. -/
def runOverdue (due : Int) (times : List Int) : List Int :=
  runOverdueAux due none times

/-- The step function `processOverdueTask` equals the guarded form: send (and store the
current time with 24-hour expiry) exactly under `overdueSendCondition`. -/
theorem processOverdueTask_eq (st : Option (Int × Int)) (now due : Int) :
    processOverdueTask st now due =
      if overdueSendCondition st now due then (some (now, now + 86400), true)
      else (st, false) := by
  unfold processOverdueTask overdueSendCondition overdueSendPart
  match h : readOverdueKey st now with
  | none => simp
  | some lastSent =>
    by_cases h6 : now - lastSent < 21600
    · have : ¬ (21600 ≤ now - lastSent) := by omega
      simp [h6, this]
    · have : 21600 ≤ now - lastSent := by omega
      by_cases hm : 0 < overdueMinutes now due <;> simp [h6, this, hm]

/-- Every send reached from key state `some (lastSent, lastSent + 86400)`
happens at least 21600 seconds after `lastSent`: while the key is live the
6-hour guard blocks earlier sends, and the key only expires 86400 seconds
after `lastSent`. -/
theorem runOverdueAux_send_lb (due : Int) (times : List Int) :
    ∀ lastSent : Int, ∀ s ∈ runOverdueAux due
      (some (lastSent, lastSent + 86400)) times, lastSent + 21600 ≤ s := by
  induction times with
  | nil => intro lastSent s hs; simp [runOverdueAux] at hs
  | cons t rest ih =>
    intro lastSent s hs
    rw [runOverdueAux] at hs
    rcases hc : overdueSendCondition (some (lastSent, lastSent + 86400)) t due
    · rw [processOverdueTask_eq, hc] at hs
      simp only [if_neg (Bool.false_ne_true)] at hs
      exact ih lastSent s hs
    · rw [processOverdueTask_eq, hc] at hs
      simp only [if_pos rfl] at hs
      have hlb : lastSent + 21600 ≤ t := by
        unfold overdueSendCondition readOverdueKey at hc
        by_cases hexp : t < lastSent + 86400
        · simp only [hexp, if_pos, Bool.and_eq_true, decide_eq_true_eq] at hc
          omega
        · omega
      rcases List.mem_cons.mp hs with h | h
      · omega
      · have := ih t s h
        omega

/-- From any key state of the shape the worker itself writes, the recorded
send times are pairwise at least 6 hours apart (consecutively). -/
theorem runOverdueAux_chain (due : Int) (times : List Int) :
    ∀ st : Option (Int × Int),
      (st = none ∨ ∃ lastSent : Int, st = some (lastSent, lastSent + 86400)) →
      List.Chain' (fun a b => a + 21600 ≤ b) (runOverdueAux due st times) := by
  induction times with
  | nil => intro st _; simp [runOverdueAux]
  | cons t rest ih =>
    intro st hst
    rw [runOverdueAux]
    rcases hc : overdueSendCondition st t due
    · rw [processOverdueTask_eq, hc]
      simp only [if_neg (Bool.false_ne_true)]
      exact ih st hst
    · rw [processOverdueTask_eq, hc]
      simp only [if_pos rfl]
      refine List.chain'_cons'.mpr ⟨?_, ih _ (Or.inr ⟨t, rfl⟩)⟩
      intro y hy
      have hmem : y ∈ runOverdueAux due (some (t, t + 86400)) rest :=
        List.mem_of_mem_head? hy
      exact runOverdueAux_send_lb due rest t y hmem

/-- C4: Overdue rate limiting: `_process_overdue_task` publishes the
`task.overdue` event and sends the notification exactly when
`overdue_minutes > 0` and either no `overdue_sent:{task.id}` record exists
(or it has expired) or the recorded last-sent time is at least 6 hours in
the past; on sending it stores the current time under the key with a
24-hour expiry, and otherwise leaves the state unchanged.  Consequently,
over any sequence of check times, no two overdue notifications for the
task are recorded less than 6 hours (21600 s) apart. -/
theorem processOverdueTask_rate_limited (due : Int) :
    (∀ (st : Option (Int × Int)) (now : Int),
      processOverdueTask st now due =
        if overdueSendCondition st now due then
          (some (now, now + 86400), true)
        else (st, false)) ∧
    (∀ times : List Int,
      List.Chain' (fun a b => a + 21600 ≤ b) (runOverdue due times)) :=
  ⟨fun st now => processOverdueTask_eq st now due,
   fun times => runOverdueAux_chain due times none (Or.inl rfl)⟩

/-! ## `_process_scheduled_reminders` (reminder_worker.py lines 407-431)

The `reminder:*` entries of Redis are modelled as an association list from
key to parsed reminder payload, in `scan_iter` order.  For each entry the
worker compares `remind_at` with `command.check_time`; a due reminder is
sent via `_send_scheduled_reminder` and its key deleted, a not-yet-due
entry is left untouched. -/

/-- A parsed `reminder:*` payload: `remind_at` (ISO timestamp), `task_id`
and `user_id` as read by `_send_scheduled_reminder`. -/
structure StoredReminder where
  remind_at : Int
  task_id : Int
  user_id : Int
deriving DecidableEq, Repr

/-- Embeds `_process_scheduled_reminders`: returns the reminders sent (in
scan order) and the store remaining after the due keys were deleted. -/
def processScheduledReminders (checkTime : Int) :
    List (String × StoredReminder) →
    List StoredReminder × List (String × StoredReminder)
  | [] => ([], [])
  | (k, r) :: rest =>
    let res := processScheduledReminders checkTime rest
    if r.remind_at ≤ checkTime then (r :: res.1, res.2)
    else (res.1, (k, r) :: res.2)

/-- C7: Scheduled reminder processing at check time `T`: exactly the
entries with `remind_at ≤ T` are sent (in scan order) and removed from the
store, and exactly the entries with `remind_at > T` remain, unchanged. -/
theorem processScheduledReminders_spec (checkTime : Int)
    (store : List (String × StoredReminder)) :
    (processScheduledReminders checkTime store).1 =
      (store.filter fun e => decide (e.2.remind_at ≤ checkTime)).map
        Prod.snd ∧
    (processScheduledReminders checkTime store).2 =
      store.filter fun e => decide (checkTime < e.2.remind_at) := by
  induction store with
  | nil => exact ⟨rfl, rfl⟩
  | cons e rest ih =>
    obtain ⟨k, r⟩ := e
    by_cases h : r.remind_at ≤ checkTime
    · have h2 : ¬ (checkTime < r.remind_at) := by omega
      simp [processScheduledReminders, List.filter_cons, h, h2, ih.1, ih.2]
    · have h2 : checkTime < r.remind_at := by omega
      simp [processScheduledReminders, List.filter_cons, h, h2, ih.1, ih.2]

/-! ## `_send_scheduled_reminder` (reminder_worker.py lines 433-474)

`TaskStatus` and `TaskResponse` are from `shared_dtos.py` (lines 18-23 and
68-77); only the fields the reminder path reads are modelled.  The task
fetch (`GET /api/v1/tasks/{task_id}`) is modelled as `Option TaskResponse`
(`none` for a non-200 response), and the Telegram session lookup as
`Option Int` (the session's `telegram_id`).  The result is the Telegram id
that received a notification, or `none` when nothing was sent. -/

/-- Enumeration `TaskStatus` (shared_dtos.py lines 18-23). -/
inductive TaskStatus where
  | todo
  | in_progress
  | completed
  | cancelled
deriving DecidableEq, Repr

/-- The fields of `TaskResponse` (shared_dtos.py lines 68-77) read by the
reminder path. -/
structure TaskResponse where
  id : Int
  user_id : Int
  title : String
  description : Option String
  status : TaskStatus
  priority : String
  due_date : Option Int
deriving DecidableEq, Repr

/-- Embeds `_send_scheduled_reminder`: fetch the task; on a 200 response,
skip completed/cancelled tasks, then notify the user's Telegram session if
one exists. -/
def sendScheduledReminder (fetchedTask : Option TaskResponse)
    (telegramSession : Option Int) (customMessage : String) : Option Int :=
  match fetchedTask with
  | none => none
  | some task =>
    if task.status = TaskStatus.completed ∨
        task.status = TaskStatus.cancelled then none
    else
      match telegramSession with
      | none => none
      | some telegramId => some telegramId

/-- C8: A scheduled reminder is never delivered for a finished task:
whenever the freshly fetched task's status is COMPLETED or CANCELLED,
`_send_scheduled_reminder` returns without sending any Telegram
notification, for every session state and reminder payload. -/
theorem sendScheduledReminder_skips_finished (task : TaskResponse)
    (telegramSession : Option Int) (customMessage : String)
    (h : task.status = TaskStatus.completed ∨
      task.status = TaskStatus.cancelled) :
    sendScheduledReminder (some task) telegramSession customMessage =
      none := by
  simp [sendScheduledReminder, h]

/-- Witness for `sendScheduledReminder_skips_finished` on a concrete
completed task with a live Telegram session. -/
theorem sendScheduledReminder_skips_finished_witness :
    sendScheduledReminder
      (some ⟨1, 2, "t", none, TaskStatus.completed, "high", none⟩)
      (some 99) "ping" = none :=
  sendScheduledReminder_skips_finished
    ⟨1, 2, "t", none, TaskStatus.completed, "high", none⟩
    (some 99) "ping" (Or.inl rfl)

/-! ## `_calculate_productivity_stats` (analytics_worker.py lines 462-547)

An activity document, as fetched from MongoDB and read by the loop: its
`task_id`, `action` string, `timestamp` (ISO, modelled in seconds), the
truthiness of `metadata.get("was_overdue")` and the optional
`metadata["priority"]` value. -/

/-- One activity dict from `_get_user_activities`. -/
structure Activity where
  task_id : Int
  action : String
  timestamp : Int
  wasOverdue : Bool
  priority : Option String
deriving DecidableEq, Repr

/-- Computes `datetime.hour` of a timestamp in seconds (floor division, as in
CPython). -/
def hourOfDay (t : Int) : Int := t / 3600 % 24

/-- Computes `(completed - created).total_seconds() / 3600` (line 504). -/
def durationHours (created completed : Int) : ℚ :=
  ((completed - created : Int) : ℚ) / 3600

/-- The mutable counters of `_calculate_productivity_stats`
(lines 477-484): `total_tasks`, `completed_tasks`, `cancelled_tasks`,
`overdue_tasks`, `completion_times`, `completion_hours`,
`priority_counts`.  `priority_counts` is a `defaultdict(int)` kept as an
association list in key insertion order. -/
structure StatsAcc where
  total : Nat
  completed : Nat
  cancelled : Nat
  overdue : Nat
  completionTimes : List ℚ
  completionHours : List Int
  priorityCounts : List (String × Nat)
deriving Repr

/-- Implements `priority_counts[final_priority] += 1` on a `defaultdict(int)`. -/
def bumpCount (l : List (String × Nat)) (k : String) : List (String × Nat) :=
  match l with
  | [] => [(k, 1)]
  | (a, n) :: rest =>
    if a = k then (a, n + 1) :: rest else (a, n) :: bumpCount rest k

/-- The per-task loop variables of lines 490-492: `created`,
`final_priority`, plus the global counters. -/
structure TaskScan where
  created : Option Int
  finalPriority : String
  acc : StatsAcc

/-- The `elif activity["action"] == "completed"` branch (lines 498-508):
count the completion, record its hour, record the completion time when a
creation was already seen, and count `was_overdue`. -/
def completedUpdate (acc : StatsAcc) (created : Option Int) (a : Activity) :
    StatsAcc :=
  { acc with
    completed := acc.completed + 1,
    completionHours := acc.completionHours ++ [hourOfDay a.timestamp],
    completionTimes := acc.completionTimes ++
      (match created with
       | some c => [durationHours c a.timestamp]
       | none => []),
    overdue := acc.overdue + (if a.wasOverdue then 1 else 0) }

/-- One iteration of the inner `for activity in task_activities_list`
loop (lines 494-510). -/
def scanStep (s : TaskScan) (a : Activity) : TaskScan :=
  if a.action = "created" then
    { s with created := some a.timestamp,
             finalPriority := a.priority.getD ("medium") }
  else if a.action = "completed" then
    { s with acc := completedUpdate s.acc s.created a }
  else if a.action = "cancelled" then
    { s with acc := { s.acc with cancelled := s.acc.cancelled + 1 } }
  else s

/-- Processing of one task's activity group (lines 486-512): bump
`total_tasks`, scan the group with fresh `created`/`final_priority`, then
bump `priority_counts[final_priority]`. -/
def processTask (acc : StatsAcc) (group : List Activity) : StatsAcc :=
  let s := group.foldl scanStep
    { created := none, finalPriority := "medium",
      acc := { acc with total := acc.total + 1 } }
  { s.acc with
    priorityCounts := bumpCount s.acc.priorityCounts s.finalPriority }

/-- Key-insertion-order deduplication (the iteration order of a Python
`defaultdict` keyed by first occurrence). -/
def dedupKeysAux {α : Type} [DecidableEq α] (seen : List α) :
    List α → List α
  | [] => []
  | a :: rest =>
    if a ∈ seen then dedupKeysAux seen rest
    else a :: dedupKeysAux (a :: seen) rest

/-- The distinct elements of a list in first-occurrence order. -/
def dedupKeys {α : Type} [DecidableEq α] (l : List α) : List α :=
  dedupKeysAux [] l

/-- The keys of `task_activities = defaultdict(list)` built on lines
472-474, in insertion order. -/
def keysOf (acts : List Activity) : List Int :=
  dedupKeys (acts.map fun a => a.task_id)

/-- The activity group `task_activities[k]`, in original order. -/
def groupOf (acts : List Activity) (k : Int) : List Activity :=
  acts.filter fun a => a.task_id == k

/-- The grouping-and-scanning core of `_calculate_productivity_stats`
(lines 471-512): iterate `processTask` over the task groups in key
insertion order. -/
def calcStatsAcc (acts : List Activity) : StatsAcc :=
  (keysOf acts).foldl (fun acc k => processTask acc (groupOf acts k))
    { total := 0, completed := 0, cancelled := 0, overdue := 0,
      completionTimes := [], completionHours := [], priorityCounts := [] }

/-- Implements `max(hour_counts, key=hour_counts.get)` over the `defaultdict` built
from `completion_hours` (lines 520-524): iterate the keys in insertion
order and keep the first key of maximal count (Python's `max` replaces the
current best only on a strictly greater value). -/
def mostProductiveHour (hours : List Int) : Option Int :=
  match dedupKeys hours with
  | [] => none
  | k :: ks =>
    some (ks.foldl (fun best h =>
      if hours.count best < hours.count h then h else best) k)

/-- Structure `ProductivityStats` (shared_dtos.py lines 155-168); the
`tasks_by_status` dict of lines 527-532 is spelled out in its four fixed
keys, with the `"todo"` entry as a (possibly negative) integer. -/
structure ProductivityStats where
  user_id : Int
  period_start : Int
  period_end : Int
  total_tasks : Nat
  completed_tasks : Nat
  cancelled_tasks : Nat
  overdue_tasks : Nat
  completion_rate : ℚ
  average_completion_time_hours : Option ℚ
  most_productive_hour : Option Int
  tasks_by_priority : List (String × Nat)
  tasks_by_status_todo : Int
  tasks_by_status_completed : Nat
  tasks_by_status_cancelled : Nat
  tasks_by_status_in_progress : Nat
deriving Repr

/-- Embeds `_calculate_productivity_stats` (lines 462-547). -/
def calculateProductivityStats (userId periodStart periodEnd : Int)
    (acts : List Activity) : ProductivityStats :=
  let acc := calcStatsAcc acts
  { user_id := userId
    period_start := periodStart
    period_end := periodEnd
    total_tasks := acc.total
    completed_tasks := acc.completed
    cancelled_tasks := acc.cancelled
    overdue_tasks := acc.overdue
    completion_rate :=
      if 0 < acc.total then (acc.completed : ℚ) / (acc.total : ℚ) else 0
    average_completion_time_hours :=
      if acc.completionTimes.isEmpty then none
      else some (acc.completionTimes.sum /
        (acc.completionTimes.length : ℚ))
    most_productive_hour := mostProductiveHour acc.completionHours
    tasks_by_priority := acc.priorityCounts
    tasks_by_status_todo :=
      (acc.total : Int) - (acc.completed : Int) - (acc.cancelled : Int)
    tasks_by_status_completed := acc.completed
    tasks_by_status_cancelled := acc.cancelled
    tasks_by_status_in_progress := 0 }

/-! ## `_generate_analytics_for_user` (analytics_worker.py lines 377-403)

The MongoDB fetch is a parameter (`acts`); the result is `none` when the
function returns without storing or caching anything (the
`len(activities) < MIN_TASKS_FOR_ANALYSIS` early return at lines 387-389)
and `some stats` for the statistics that are both stored via
`_store_productivity_stats` and cached via `_cache_user_stats`. -/

/-- Setting `Settings.MIN_TASKS_FOR_ANALYSIS` (analytics_worker.py line 57). -/
def MIN_TASKS_FOR_ANALYSIS : Nat := 5

/-- Embeds `_generate_analytics_for_user`. -/
def generateAnalyticsForUser (userId periodStart periodEnd : Int)
    (acts : List Activity) : Option ProductivityStats :=
  if acts.length < MIN_TASKS_FOR_ANALYSIS then none
  else some (calculateProductivityStats userId periodStart periodEnd acts)

/-! ## Characterisations of the statistics computation -/

/-- The `activity["action"] == "completed"` test of line 498. -/
def completedB (a : Activity) : Bool := a.action == "completed"

/-- The `activity["action"] == "cancelled"` test of line 509. -/
def cancelledB (a : Activity) : Bool := a.action == "cancelled"

/-- A completion activity whose completion timestamp falls in hour `x` of
the day. -/
def completedAtHourB (x : Int) (a : Activity) : Bool :=
  (hourOfDay a.timestamp == x) && completedB a

/-- A completion or cancellation activity. -/
def completedOrCancelledB (a : Activity) : Bool :=
  completedB a || cancelledB a

/-- The completion durations collected while scanning one task's activity
list with current `created` value `c`: each `"completed"` activity preceded
by a `"created"` activity contributes `(completed - created)` in hours. -/
def taskDurations (c : Option Int) : List Activity → List ℚ
  | [] => []
  | a :: rest =>
    if a.action = "created" then taskDurations (some a.timestamp) rest
    else if a.action = "completed" then
      (match c with
       | some created => [durationHours created a.timestamp]
       | none => []) ++ taskDurations c rest
    else taskDurations c rest

/-- All completion durations with a matching creation, grouped per task in
key insertion order — the decomposed form of the `completion_times` list. -/
def taskMatchedDurations (acts : List Activity) : List ℚ :=
  ((keysOf acts).map fun k => taskDurations none (groupOf acts k)).flatten

theorem mem_dedupKeysAux {α : Type} [DecidableEq α] (l : List α) :
    ∀ (seen : List α) (x : α),
      x ∈ dedupKeysAux seen l ↔ x ∈ l ∧ x ∉ seen := by
  induction l with
  | nil => intro seen x; simp [dedupKeysAux]
  | cons a rest ih =>
    intro seen x
    by_cases h : a ∈ seen
    · simp only [dedupKeysAux, if_pos h, ih, List.mem_cons]
      constructor
      · rintro ⟨hx, hns⟩; exact ⟨Or.inr hx, hns⟩
      · rintro ⟨rfl | hx, hns⟩
        · exact absurd h hns
        · exact ⟨hx, hns⟩
    · simp only [dedupKeysAux, if_neg h, List.mem_cons, ih]
      constructor
      · rintro (rfl | ⟨hx, hns⟩)
        · exact ⟨Or.inl rfl, h⟩
        · exact ⟨Or.inr hx, fun hc => hns (Or.inr hc)⟩
      · rintro ⟨rfl | hx, hns⟩
        · exact Or.inl rfl
        · by_cases hxa : x = a
          · exact Or.inl hxa
          · exact Or.inr ⟨hx, fun hd => hd.elim hxa hns⟩

theorem mem_dedupKeys {α : Type} [DecidableEq α] {l : List α} {x : α} :
    x ∈ dedupKeys l ↔ x ∈ l := by
  simp [dedupKeys, mem_dedupKeysAux]

theorem nodup_dedupKeysAux {α : Type} [DecidableEq α] (l : List α) :
    ∀ seen : List α, (dedupKeysAux seen l).Nodup := by
  induction l with
  | nil => intro seen; simp [dedupKeysAux]
  | cons a rest ih =>
    intro seen
    by_cases h : a ∈ seen
    · rw [dedupKeysAux, if_pos h]; exact ih seen
    · rw [dedupKeysAux, if_neg h]
      refine List.nodup_cons.mpr ⟨?_, ih (a :: seen)⟩
      intro hc
      exact ((mem_dedupKeysAux rest (a :: seen) a).mp hc).2
        (List.mem_cons_self a seen)

theorem nodup_dedupKeys {α : Type} [DecidableEq α] (l : List α) :
    (dedupKeys l).Nodup :=
  nodup_dedupKeysAux l []

theorem count_filter_key {α κ : Type} [DecidableEq α] [DecidableEq κ]
    (key : α → κ) (b : α) (k : κ) (l : List α) :
    List.count b (l.filter fun a => key a == k) =
      if key b = k then List.count b l else 0 := by
  induction l with
  | nil => simp
  | cons a rest ih =>
    rw [List.filter_cons]
    by_cases hak : key a == k
    · rw [if_pos hak, List.count_cons, ih, List.count_cons]
      by_cases hab : a == b
      · have : key b = k := by
          have h1 : a = b := by simpa using hab
          subst h1
          simpa using hak
        simp [hab, this]
      · simp [hab]
    · rw [if_neg (by simpa using hak), ih, List.count_cons]
      by_cases hbk : key b = k
      · have hab : (a == b) ≠ true := by
          intro hc
          have h1 : a = b := by simpa using hc
          subst h1
          exact hak (by simpa using hbk)
        simp [hbk, hab]
      · simp [hbk]

theorem count_groups {α κ : Type} [DecidableEq α] [DecidableEq κ]
    (key : α → κ) (b : α) (l : List α) :
    ∀ ks : List κ, ks.Nodup →
      List.count b ((ks.map fun k => l.filter fun a => key a == k).flatten) =
        if key b ∈ ks then List.count b l else 0 := by
  intro ks
  induction ks with
  | nil => simp
  | cons k ks ih =>
    intro hnd
    obtain ⟨hk, hnd2⟩ := List.nodup_cons.mp hnd
    rw [List.map_cons, List.flatten_cons, List.count_append, ih hnd2,
      count_filter_key key b k l]
    by_cases hbk : key b = k
    · rw [if_pos hbk, if_pos (List.mem_cons.mpr (Or.inl hbk)),
        if_neg (fun hc => hk (hbk ▸ hc)), Nat.add_zero]
    · rw [if_neg hbk]
      by_cases hbks : key b ∈ ks
      · rw [if_pos hbks, if_pos (List.mem_cons.mpr (Or.inr hbks)),
          Nat.zero_add]
      · rw [if_neg hbks,
          if_neg (fun hc => (List.mem_cons.mp hc).elim hbk hbks),
          Nat.zero_add]

theorem groups_perm {α κ : Type} [DecidableEq α] [DecidableEq κ]
    (key : α → κ) (l : List α) (ks : List κ) (hnd : ks.Nodup)
    (hcov : ∀ a ∈ l, key a ∈ ks) :
    ((ks.map fun k => l.filter fun a => key a == k).flatten).Perm l := by
  rw [List.perm_iff_count]
  intro b
  rw [count_groups key b l ks hnd]
  by_cases hb : b ∈ l
  · rw [if_pos (hcov b hb)]
  · rw [List.count_eq_zero.mpr hb, ite_self]

/-- The task groups in key insertion order partition the activity list. -/
theorem groupOf_perm (acts : List Activity) :
    (((keysOf acts).map fun k => groupOf acts k).flatten).Perm acts := by
  refine groups_perm (fun a => a.task_id) acts (keysOf acts)
    (nodup_dedupKeys _) ?_
  intro a ha
  exact mem_dedupKeys.mpr (List.mem_map_of_mem (fun a => a.task_id) ha)

theorem countP_flatten {α : Type} (p : α → Bool) :
    ∀ L : List (List α),
      List.countP p L.flatten = (L.map (List.countP p)).sum := by
  intro L
  induction L with
  | nil => simp
  | cons l ls ih => simp [List.countP_append, ih]

/-- Summing any per-group `countP` over the task groups counts over the
whole activity list. -/
theorem countP_partition (q : Activity → Bool) (acts : List Activity) :
    ((keysOf acts).map fun k => (groupOf acts k).countP q).sum =
      acts.countP q := by
  have h1 : ((keysOf acts).map fun k => (groupOf acts k).countP q) =
      (((keysOf acts).map fun k => groupOf acts k).map (List.countP q)) := by
    rw [List.map_map]; rfl
  rw [h1, ← countP_flatten q, (groupOf_perm acts).countP_eq q]

theorem scanStep_total (s : TaskScan) (a : Activity) :
    (scanStep s a).acc.total = s.acc.total := by
  unfold scanStep completedUpdate
  split_ifs <;> rfl

theorem scanStep_completed (s : TaskScan) (a : Activity) :
    (scanStep s a).acc.completed =
      s.acc.completed + (if completedB a then 1 else 0) := by
  by_cases h1 : a.action = "created"
  · have hb : completedB a = false := by
      unfold completedB; rw [h1]; decide
    simp [scanStep, h1, hb]
  · by_cases h2 : a.action = "completed"
    · have hb : completedB a = true := by
        unfold completedB; rw [h2]; decide
      simp [scanStep, completedUpdate, h1, h2, hb]
    · have hb : completedB a = false := by
        unfold completedB; simpa using h2
      by_cases h3 : a.action = "cancelled" <;>
        simp [scanStep, h1, h2, h3, hb]

theorem scanStep_cancelled (s : TaskScan) (a : Activity) :
    (scanStep s a).acc.cancelled =
      s.acc.cancelled + (if cancelledB a then 1 else 0) := by
  by_cases h1 : a.action = "created"
  · have hb : cancelledB a = false := by
      unfold cancelledB; rw [h1]; decide
    simp [scanStep, h1, hb]
  · by_cases h2 : a.action = "completed"
    · have hb : cancelledB a = false := by
        unfold cancelledB; rw [h2]; decide
      simp [scanStep, completedUpdate, h1, h2, hb]
    · by_cases h3 : a.action = "cancelled"
      · have hb : cancelledB a = true := by
          unfold cancelledB; rw [h3]; decide
        simp [scanStep, h1, h2, h3, hb]
      · have hb : cancelledB a = false := by
          unfold cancelledB; simpa using h3
        simp [scanStep, h1, h2, h3, hb]

theorem scanStep_created (s : TaskScan) (a : Activity) :
    (scanStep s a).created =
      if a.action = "created" then some a.timestamp else s.created := by
  unfold scanStep
  split_ifs with h1 h2 h3 <;> rfl

theorem scanStep_times (s : TaskScan) (a : Activity) :
    (scanStep s a).acc.completionTimes =
      s.acc.completionTimes ++
        (if a.action = "created" then []
         else if a.action = "completed" then
           (match s.created with
            | some created => [durationHours created a.timestamp]
            | none => [])
         else []) := by
  unfold scanStep completedUpdate
  split_ifs with h1 h2 h3 <;> simp

theorem scanStep_hours (s : TaskScan) (a : Activity) :
    (scanStep s a).acc.completionHours =
      s.acc.completionHours ++
        (if completedB a then [hourOfDay a.timestamp] else []) := by
  by_cases h1 : a.action = "created"
  · have hb : completedB a = false := by
      unfold completedB; rw [h1]; decide
    simp [scanStep, h1, hb]
  · by_cases h2 : a.action = "completed"
    · have hb : completedB a = true := by
        unfold completedB; rw [h2]; decide
      simp [scanStep, completedUpdate, h1, h2, hb]
    · have hb : completedB a = false := by
        unfold completedB; simpa using h2
      by_cases h3 : a.action = "cancelled" <;>
        simp [scanStep, h1, h2, h3, hb]

theorem scan_total (g : List Activity) :
    ∀ s : TaskScan, (g.foldl scanStep s).acc.total = s.acc.total := by
  induction g with
  | nil => intro s; rfl
  | cons a rest ih =>
    intro s
    rw [List.foldl_cons, ih, scanStep_total]

theorem scan_completed (g : List Activity) :
    ∀ s : TaskScan,
      (g.foldl scanStep s).acc.completed =
        s.acc.completed + g.countP completedB := by
  induction g with
  | nil => intro s; simp
  | cons a rest ih =>
    intro s
    rw [List.foldl_cons, ih, scanStep_completed, List.countP_cons]
    by_cases h : completedB a <;> simp [h] <;> omega

theorem scan_cancelled (g : List Activity) :
    ∀ s : TaskScan,
      (g.foldl scanStep s).acc.cancelled =
        s.acc.cancelled + g.countP cancelledB := by
  induction g with
  | nil => intro s; simp
  | cons a rest ih =>
    intro s
    rw [List.foldl_cons, ih, scanStep_cancelled, List.countP_cons]
    by_cases h : cancelledB a <;> simp [h] <;> omega

theorem scan_times (g : List Activity) :
    ∀ s : TaskScan,
      (g.foldl scanStep s).acc.completionTimes =
        s.acc.completionTimes ++ taskDurations s.created g := by
  induction g with
  | nil => intro s; simp [taskDurations]
  | cons a rest ih =>
    intro s
    rw [List.foldl_cons, ih, scanStep_times, scanStep_created]
    simp only [taskDurations]
    by_cases h1 : a.action = "created"
    · simp [h1]
    · by_cases h2 : a.action = "completed"
      · simp [h1, h2, List.append_assoc]
      · simp [h1, h2]

theorem scan_hours (g : List Activity) :
    ∀ s : TaskScan,
      (g.foldl scanStep s).acc.completionHours =
        s.acc.completionHours ++
          (g.filter completedB).map fun a => hourOfDay a.timestamp := by
  induction g with
  | nil => intro s; simp
  | cons a rest ih =>
    intro s
    rw [List.foldl_cons, ih, scanStep_hours, List.filter_cons]
    by_cases h : completedB a
    · simp [h, List.append_assoc]
    · simp [h]

theorem processTask_total (acc : StatsAcc) (g : List Activity) :
    (processTask acc g).total = acc.total + 1 := by
  unfold processTask
  rw [scan_total]

theorem processTask_completed (acc : StatsAcc) (g : List Activity) :
    (processTask acc g).completed = acc.completed + g.countP completedB := by
  unfold processTask
  rw [scan_completed]

theorem processTask_cancelled (acc : StatsAcc) (g : List Activity) :
    (processTask acc g).cancelled = acc.cancelled + g.countP cancelledB := by
  unfold processTask
  rw [scan_cancelled]

theorem processTask_times (acc : StatsAcc) (g : List Activity) :
    (processTask acc g).completionTimes =
      acc.completionTimes ++ taskDurations none g := by
  unfold processTask
  rw [scan_times]

theorem processTask_hours (acc : StatsAcc) (g : List Activity) :
    (processTask acc g).completionHours =
      acc.completionHours ++
        (g.filter completedB).map fun a => hourOfDay a.timestamp := by
  unfold processTask
  rw [scan_hours]

theorem foldl_processTask_total (acts : List Activity) (ks : List Int) :
    ∀ acc : StatsAcc,
      ((ks.foldl (fun a k => processTask a (groupOf acts k)) acc).total) =
        acc.total + ks.length := by
  induction ks with
  | nil => intro acc; simp
  | cons k ks ih =>
    intro acc
    rw [List.foldl_cons, ih, processTask_total, List.length_cons]
    omega

theorem foldl_processTask_completed (acts : List Activity) (ks : List Int) :
    ∀ acc : StatsAcc,
      ((ks.foldl (fun a k => processTask a (groupOf acts k)) acc).completed) =
        acc.completed +
          (ks.map fun k => (groupOf acts k).countP completedB).sum := by
  induction ks with
  | nil => intro acc; simp
  | cons k ks ih =>
    intro acc
    rw [List.foldl_cons, ih, processTask_completed, List.map_cons,
      List.sum_cons]
    omega

theorem foldl_processTask_cancelled (acts : List Activity) (ks : List Int) :
    ∀ acc : StatsAcc,
      ((ks.foldl (fun a k => processTask a (groupOf acts k)) acc).cancelled) =
        acc.cancelled +
          (ks.map fun k => (groupOf acts k).countP cancelledB).sum := by
  induction ks with
  | nil => intro acc; simp
  | cons k ks ih =>
    intro acc
    rw [List.foldl_cons, ih, processTask_cancelled, List.map_cons,
      List.sum_cons]
    omega

theorem foldl_processTask_times (acts : List Activity) (ks : List Int) :
    ∀ acc : StatsAcc,
      ((ks.foldl (fun a k =>
          processTask a (groupOf acts k)) acc).completionTimes) =
        acc.completionTimes ++
          ((ks.map fun k => taskDurations none (groupOf acts k)).flatten) := by
  induction ks with
  | nil => intro acc; simp
  | cons k ks ih =>
    intro acc
    rw [List.foldl_cons, ih, processTask_times, List.map_cons,
      List.flatten_cons, List.append_assoc]

theorem foldl_processTask_hours (acts : List Activity) (ks : List Int) :
    ∀ acc : StatsAcc,
      ((ks.foldl (fun a k =>
          processTask a (groupOf acts k)) acc).completionHours) =
        acc.completionHours ++
          ((ks.map fun k =>
            ((groupOf acts k).filter completedB).map fun a =>
              hourOfDay a.timestamp).flatten) := by
  induction ks with
  | nil => intro acc; simp
  | cons k ks ih =>
    intro acc
    rw [List.foldl_cons, ih, processTask_hours, List.map_cons,
      List.flatten_cons, List.append_assoc]

theorem calcStatsAcc_total (acts : List Activity) :
    (calcStatsAcc acts).total = (keysOf acts).length := by
  unfold calcStatsAcc
  rw [foldl_processTask_total]
  simp

theorem calcStatsAcc_completed (acts : List Activity) :
    (calcStatsAcc acts).completed = acts.countP completedB := by
  unfold calcStatsAcc
  rw [foldl_processTask_completed, countP_partition]
  simp

theorem calcStatsAcc_cancelled (acts : List Activity) :
    (calcStatsAcc acts).cancelled = acts.countP cancelledB := by
  unfold calcStatsAcc
  rw [foldl_processTask_cancelled, countP_partition]
  simp

theorem calcStatsAcc_times (acts : List Activity) :
    (calcStatsAcc acts).completionTimes = taskMatchedDurations acts := by
  unfold calcStatsAcc taskMatchedDurations
  rw [foldl_processTask_times]
  rfl

theorem calcStatsAcc_hours (acts : List Activity) :
    (calcStatsAcc acts).completionHours =
      ((keysOf acts).map fun k =>
        ((groupOf acts k).filter completedB).map fun a =>
          hourOfDay a.timestamp).flatten := by
  unfold calcStatsAcc
  rw [foldl_processTask_hours]
  rfl

theorem mph_foldl_mem (hours : List Int) :
    ∀ (ks : List Int) (k : Int),
      (ks.foldl (fun best h =>
        if hours.count best < hours.count h then h else best) k) ∈
        k :: ks := by
  intro ks
  induction ks with
  | nil => intro k; simp
  | cons h ks ih =>
    intro k
    rw [List.foldl_cons]
    by_cases hc : hours.count k < hours.count h
    · rw [if_pos hc]
      rcases List.mem_cons.mp (ih h) with hm | hm
      · rw [hm]
        exact List.mem_cons.mpr (Or.inr (List.mem_cons_self h ks))
      · exact List.mem_cons.mpr (Or.inr (List.mem_cons.mpr (Or.inr hm)))
    · rw [if_neg hc]
      rcases List.mem_cons.mp (ih k) with hm | hm
      · rw [hm]
        exact List.mem_cons_self k (h :: ks)
      · exact List.mem_cons.mpr (Or.inr (List.mem_cons.mpr (Or.inr hm)))

theorem mph_foldl_max (hours : List Int) :
    ∀ (ks : List Int) (k x : Int), x ∈ k :: ks →
      hours.count x ≤ hours.count
        (ks.foldl (fun best h =>
          if hours.count best < hours.count h then h else best) k) := by
  intro ks
  induction ks with
  | nil =>
    intro k x hx
    rcases List.mem_cons.mp hx with rfl | hm
    · simp
    · simp at hm
  | cons h ks ih =>
    intro k x hx
    rw [List.foldl_cons]
    have hbest : hours.count k ≤
        hours.count (if hours.count k < hours.count h then h else k) := by
      by_cases hc : hours.count k < hours.count h
      · rw [if_pos hc]; omega
      · rw [if_neg hc]
    have hsecond : hours.count h ≤
        hours.count (if hours.count k < hours.count h then h else k) := by
      by_cases hc : hours.count k < hours.count h
      · rw [if_pos hc]
      · rw [if_neg hc]; omega
    have hrec : hours.count (if hours.count k < hours.count h then h else k) ≤
        hours.count ((ks.foldl (fun best h =>
          if hours.count best < hours.count h then h else best)
            (if hours.count k < hours.count h then h else k))) :=
      ih _ _ (List.mem_cons_self _ _)
    rcases List.mem_cons.mp hx with rfl | hm
    · omega
    · rcases List.mem_cons.mp hm with rfl | hm2
      · omega
      · exact ih _ _ (List.mem_cons.mpr (Or.inr hm2))

theorem mostProductiveHour_eq_none (hours : List Int) :
    mostProductiveHour hours = none ↔ hours = [] := by
  unfold mostProductiveHour
  match hd : dedupKeys hours with
  | [] =>
    simp only [true_iff]
    cases hours with
    | nil => simp
    | cons a rest =>
      exfalso
      have : a ∈ dedupKeys (a :: rest) :=
        mem_dedupKeys.mpr (List.mem_cons_self a rest)
      rw [hd] at this
      simp at this
  | k :: ks =>
    simp only [reduceCtorEq, false_iff]
    intro hc
    subst hc
    simp [dedupKeys, dedupKeysAux] at hd

theorem mostProductiveHour_max (hours : List Int) (h : Int)
    (hmph : mostProductiveHour hours = some h) :
    ∀ x : Int, hours.count x ≤ hours.count h := by
  intro x
  unfold mostProductiveHour at hmph
  match hd : dedupKeys hours with
  | [] => rw [hd] at hmph; simp at hmph
  | k :: ks =>
    rw [hd] at hmph
    have hh : (ks.foldl (fun best h2 =>
        if hours.count best < hours.count h2 then h2 else best) k) = h := by
      simpa using hmph
    by_cases hx : x ∈ hours
    · have : x ∈ k :: ks := by
        rw [← hd]
        exact mem_dedupKeys.mpr hx
      rw [← hh]
      exact mph_foldl_max hours ks k x this
    · rw [List.count_eq_zero.mpr hx]
      omega

/-- The list `completion_hours` counted at hour `x` counts the completion
activities whose timestamp falls in hour `x`. -/
theorem count_calc_hours (acts : List Activity) (x : Int) :
    ((calcStatsAcc acts).completionHours).count x =
      acts.countP (completedAtHourB x) := by
  rw [calcStatsAcc_hours, List.count_flatten, List.map_map]
  have h1 : ∀ k : Int,
      ((List.count x ∘ fun k =>
        ((groupOf acts k).filter completedB).map fun a =>
          hourOfDay a.timestamp) k) =
      (groupOf acts k).countP (completedAtHourB x) := by
    intro k
    simp only [Function.comp_apply]
    rw [List.count_eq_countP, List.countP_map, List.countP_filter]
    rfl
  rw [List.map_congr_left fun k _ => h1 k]
  exact countP_partition (completedAtHourB x) acts

/-- The number of recorded completion hours is the number of completion
activities. -/
theorem length_calc_hours (acts : List Activity) :
    ((calcStatsAcc acts).completionHours).length =
      acts.countP completedB := by
  rw [calcStatsAcc_hours, List.length_flatten, List.map_map]
  have h1 : ∀ k : Int,
      ((List.length ∘ fun k =>
        ((groupOf acts k).filter completedB).map fun a =>
          hourOfDay a.timestamp) k) =
      (groupOf acts k).countP completedB := by
    intro k
    simp only [Function.comp_apply, List.length_map]
    rw [List.countP_eq_length_filter]
  rw [List.map_congr_left fun k _ => h1 k]
  exact countP_partition completedB acts

/-! ## Claims C5, C9, C10 -/

/-- C5: Descriptive statistics: for every activity list,
`_calculate_productivity_stats` returns statistics in which
`total_tasks` is the number of distinct task ids; `completed_tasks` counts
the `"completed"` activities; `completion_rate` is
`completed_tasks / total_tasks` when `total_tasks > 0` and `0` otherwise;
`average_completion_time_hours` is the arithmetic mean of the per-task
completion durations (each completion paired with the creation already
seen in its task's activity list), or `None` when no completion has a
matching creation; and `most_productive_hour` is an hour of day with the
greatest number of completion activities, or `None` when there are no
completions. -/
theorem calculateProductivityStats_spec (userId periodStart periodEnd : Int)
    (acts : List Activity) :
    (calculateProductivityStats userId periodStart periodEnd
        acts).total_tasks = (keysOf acts).length ∧
    (calculateProductivityStats userId periodStart periodEnd
        acts).completed_tasks = acts.countP completedB ∧
    (calculateProductivityStats userId periodStart periodEnd
        acts).completion_rate =
      (if 0 < (calculateProductivityStats userId periodStart periodEnd
          acts).total_tasks then
        ((calculateProductivityStats userId periodStart periodEnd
            acts).completed_tasks : ℚ) /
          ((calculateProductivityStats userId periodStart periodEnd
              acts).total_tasks : ℚ)
      else 0) ∧
    (calculateProductivityStats userId periodStart periodEnd
        acts).average_completion_time_hours =
      (if taskMatchedDurations acts = [] then none
       else some ((taskMatchedDurations acts).sum /
         ((taskMatchedDurations acts).length : ℚ))) ∧
    ((calculateProductivityStats userId periodStart periodEnd
        acts).most_productive_hour = none ↔
      acts.countP completedB = 0) ∧
    (∀ h : Int, (calculateProductivityStats userId periodStart periodEnd
        acts).most_productive_hour = some h →
      ∀ x : Int, acts.countP (completedAtHourB x) ≤
        acts.countP (completedAtHourB h)) := by
  refine ⟨?_, ?_, ?_, ?_, ?_, ?_⟩
  · exact calcStatsAcc_total acts
  · exact calcStatsAcc_completed acts
  · rfl
  · show (if (calcStatsAcc acts).completionTimes.isEmpty then none
      else some ((calcStatsAcc acts).completionTimes.sum /
        ((calcStatsAcc acts).completionTimes.length : ℚ))) = _
    rw [calcStatsAcc_times]
    by_cases he : taskMatchedDurations acts = [] <;>
      simp [he, List.isEmpty_iff]
  · show mostProductiveHour (calcStatsAcc acts).completionHours = none ↔ _
    rw [mostProductiveHour_eq_none]
    have hl := length_calc_hours acts
    constructor
    · intro h
      rw [h] at hl
      simpa using hl.symm
    · intro h
      rw [h] at hl
      exact List.length_eq_zero.mp hl
  · intro h hm x
    rw [← count_calc_hours, ← count_calc_hours]
    exact mostProductiveHour_max (calcStatsAcc acts).completionHours h hm x

/-- A concrete completion activity (hour of day 1) used in witnesses and
counterexamples. -/
def sampleCompleted : Activity :=
  { task_id := 1, action := "completed", timestamp := 3600,
    wasOverdue := false, priority := none }

/-- Witness for `calculateProductivityStats_spec`: on one completion
activity at hour 1, `most_productive_hour` is `some 1` and its completion
count dominates every hour. -/
theorem calculateProductivityStats_spec_witness :
    (calculateProductivityStats 0 0 0
        [sampleCompleted]).most_productive_hour = some 1 ∧
    (∀ x : Int, [sampleCompleted].countP (completedAtHourB x) ≤
      [sampleCompleted].countP (completedAtHourB 1)) :=
  ⟨by decide,
   (calculateProductivityStats_spec 0 0 0 [sampleCompleted]).2.2.2.2.2 1
     (by decide)⟩

theorem countP_add_of_disjoint {α : Type} (p q : α → Bool) (l : List α)
    (hdisj : ∀ a ∈ l, ¬(p a = true ∧ q a = true)) :
    l.countP p + l.countP q = l.countP fun a => p a || q a := by
  induction l with
  | nil => simp
  | cons a rest ih =>
    have hd2 : ∀ b ∈ rest, ¬(p b = true ∧ q b = true) :=
      fun b hb => hdisj b (List.mem_cons_of_mem a hb)
    rw [List.countP_cons, List.countP_cons, List.countP_cons, ← ih hd2]
    have hda := hdisj a (List.mem_cons_self a rest)
    by_cases hp : p a = true
    · by_cases hq : q a = true
      · exact absurd ⟨hp, hq⟩ hda
      · simp only [hp, hq, Bool.true_or, if_true, if_false,
          Bool.false_eq_true]
        omega
    · by_cases hq : q a = true <;>
        simp only [hp, hq, Bool.false_or, if_true, if_false,
          Bool.false_eq_true] <;>
        omega

theorem completedB_cancelledB_disjoint (a : Activity) :
    ¬(completedB a = true ∧ cancelledB a = true) := by
  rintro ⟨h1, h2⟩
  unfold completedB at h1
  unfold cancelledB at h2
  have e1 : a.action = "completed" := by simpa using h1
  have e2 : a.action = "cancelled" := by simpa using h2
  rw [e1] at e2
  exact absurd e2 (by decide)

theorem sum_map_le_length {κ : Type} (ks : List κ) (f : κ → Nat)
    (hf : ∀ k ∈ ks, f k ≤ 1) : (ks.map f).sum ≤ ks.length := by
  induction ks with
  | nil => simp
  | cons k ks ih =>
    rw [List.map_cons, List.sum_cons, List.length_cons]
    have h1 := hf k (List.mem_cons_self k ks)
    have h2 := ih fun b hb => hf b (List.mem_cons_of_mem k hb)
    omega

/-- When every task has at most one completion-or-cancellation activity,
the completion and cancellation counts together are bounded by the number
of distinct tasks. -/
theorem completed_cancelled_le_total (acts : List Activity)
    (H : ∀ tid ∈ acts.map fun a => a.task_id,
      acts.countP (fun a => (a.task_id == tid) && completedOrCancelledB a)
        ≤ 1) :
    acts.countP completedB + acts.countP cancelledB ≤
      (keysOf acts).length := by
  rw [countP_add_of_disjoint completedB cancelledB acts
    (fun a _ => completedB_cancelledB_disjoint a)]
  rw [show (fun a => completedB a || cancelledB a) = completedOrCancelledB
    from rfl]
  rw [← countP_partition completedOrCancelledB acts]
  apply sum_map_le_length
  intro k hk
  have hk2 : k ∈ acts.map fun a => a.task_id :=
    mem_dedupKeys.mp hk
  have hH := H k hk2
  unfold groupOf
  rw [List.countP_filter]
  have hcomm : (fun a => completedOrCancelledB a && (a.task_id == k)) =
      fun a => (a.task_id == k) && completedOrCancelledB a := by
    funext a
    exact Bool.and_comm _ _
  rw [hcomm]
  exact hH

/-- C9 (counterexample): Two `"completed"` activities for the same
task make `completed_tasks = 2` exceed `total_tasks = 1` (each completion
activity is counted, not each completed task), and the derived
`tasks_by_status["todo"]` entry is negative. -/
theorem calculateProductivityStats_duplicate_counterexample :
    ¬ ((calculateProductivityStats 0 0 0
          [sampleCompleted, sampleCompleted]).completed_tasks +
        (calculateProductivityStats 0 0 0
          [sampleCompleted, sampleCompleted]).cancelled_tasks ≤
        (calculateProductivityStats 0 0 0
          [sampleCompleted, sampleCompleted]).total_tasks) ∧
    (calculateProductivityStats 0 0 0
      [sampleCompleted, sampleCompleted]).tasks_by_status_todo < 0 := by
  constructor
  · decide
  · decide

/-- C9 (amended): Provided every task has at most one
completion-or-cancellation activity in the input (no duplicated completion
or cancellation events for the same task), the statistics satisfy
`completed_tasks + cancelled_tasks ≤ total_tasks`,
`0 ≤ completion_rate ≤ 1`, and the derived `tasks_by_status["todo"]` entry
`total_tasks - completed_tasks - cancelled_tasks` is never negative. -/
theorem calculateProductivityStats_consistent
    (userId periodStart periodEnd : Int) (acts : List Activity)
    (H : ∀ tid ∈ acts.map fun a => a.task_id,
      acts.countP (fun a => (a.task_id == tid) && completedOrCancelledB a)
        ≤ 1) :
    (calculateProductivityStats userId periodStart periodEnd
        acts).completed_tasks +
      (calculateProductivityStats userId periodStart periodEnd
        acts).cancelled_tasks ≤
      (calculateProductivityStats userId periodStart periodEnd
        acts).total_tasks ∧
    0 ≤ (calculateProductivityStats userId periodStart periodEnd
        acts).completion_rate ∧
    (calculateProductivityStats userId periodStart periodEnd
        acts).completion_rate ≤ 1 ∧
    0 ≤ (calculateProductivityStats userId periodStart periodEnd
        acts).tasks_by_status_todo := by
  have hcc := completed_cancelled_le_total acts H
  have hle : (calcStatsAcc acts).completed + (calcStatsAcc acts).cancelled ≤
      (calcStatsAcc acts).total := by
    rw [calcStatsAcc_completed, calcStatsAcc_cancelled, calcStatsAcc_total]
    exact hcc
  refine ⟨hle, ?_, ?_, ?_⟩
  · show (0 : ℚ) ≤ if 0 < (calcStatsAcc acts).total then
      ((calcStatsAcc acts).completed : ℚ) / ((calcStatsAcc acts).total : ℚ)
      else 0
    by_cases ht : 0 < (calcStatsAcc acts).total
    · rw [if_pos ht]
      exact div_nonneg (Nat.cast_nonneg _) (Nat.cast_nonneg _)
    · rw [if_neg ht]
  · show (if 0 < (calcStatsAcc acts).total then
      ((calcStatsAcc acts).completed : ℚ) / ((calcStatsAcc acts).total : ℚ)
      else 0) ≤ 1
    by_cases ht : 0 < (calcStatsAcc acts).total
    · rw [if_pos ht]
      refine (div_le_one (by exact_mod_cast ht)).mpr ?_
      have : (calcStatsAcc acts).completed ≤ (calcStatsAcc acts).total := by
        omega
      exact_mod_cast this
    · rw [if_neg ht]
      exact zero_le_one
  · show (0 : Int) ≤ ((calcStatsAcc acts).total : Int) -
      ((calcStatsAcc acts).completed : Int) -
      ((calcStatsAcc acts).cancelled : Int)
    omega

/-- Witness for `calculateProductivityStats_consistent`: three activities
on three distinct tasks (one completion, one cancellation, one creation)
satisfy the at-most-one hypothesis, and the bounds follow. -/
theorem calculateProductivityStats_consistent_witness :
    (∀ tid ∈ ([sampleCompleted,
        { task_id := 2, action := "cancelled", timestamp := 0,
          wasOverdue := false, priority := none },
        { task_id := 3, action := "created", timestamp := 0,
          wasOverdue := false, priority := none }] :
          List Activity).map fun a => a.task_id,
      ([sampleCompleted,
        { task_id := 2, action := "cancelled", timestamp := 0,
          wasOverdue := false, priority := none },
        { task_id := 3, action := "created", timestamp := 0,
          wasOverdue := false, priority := none }] :
          List Activity).countP
        (fun a => (a.task_id == tid) && completedOrCancelledB a) ≤ 1) ∧
    (calculateProductivityStats 0 0 0 [sampleCompleted,
        { task_id := 2, action := "cancelled", timestamp := 0,
          wasOverdue := false, priority := none },
        { task_id := 3, action := "created", timestamp := 0,
          wasOverdue := false, priority := none }]).completed_tasks +
      (calculateProductivityStats 0 0 0 [sampleCompleted,
        { task_id := 2, action := "cancelled", timestamp := 0,
          wasOverdue := false, priority := none },
        { task_id := 3, action := "created", timestamp := 0,
          wasOverdue := false, priority := none }]).cancelled_tasks ≤
      (calculateProductivityStats 0 0 0 [sampleCompleted,
        { task_id := 2, action := "cancelled", timestamp := 0,
          wasOverdue := false, priority := none },
        { task_id := 3, action := "created", timestamp := 0,
          wasOverdue := false, priority := none }]).total_tasks :=
  ⟨by decide,
   (calculateProductivityStats_consistent 0 0 0 _ (by decide)).1⟩

/-- C10: Minimum-data threshold: `_generate_analytics_for_user`
computes, stores and caches statistics exactly when the user has at least
`MIN_TASKS_FOR_ANALYSIS` (5) activities in the period; with fewer it
returns without storing or caching anything, and what it stores is
`_calculate_productivity_stats` on those activities. -/
theorem generateAnalyticsForUser_threshold
    (userId periodStart periodEnd : Int) (acts : List Activity) :
    ((generateAnalyticsForUser userId periodStart periodEnd
        acts).isSome = true ↔ MIN_TASKS_FOR_ANALYSIS ≤ acts.length) ∧
    (∀ s, generateAnalyticsForUser userId periodStart periodEnd acts =
        some s →
      s = calculateProductivityStats userId periodStart periodEnd acts) := by
  unfold generateAnalyticsForUser
  by_cases h : acts.length < MIN_TASKS_FOR_ANALYSIS
  · rw [if_pos h]
    constructor
    · simp only [Option.isSome_none, Bool.false_eq_true, false_iff]
      omega
    · intro s hs
      simp at hs
  · rw [if_neg h]
    constructor
    · simp only [Option.isSome_some, true_iff]
      omega
    · intro s hs
      have := Option.some.inj hs
      exact this.symm

/-- Witness for `generateAnalyticsForUser_threshold`: five activities are
enough for statistics to be produced. -/
theorem generateAnalyticsForUser_threshold_witness :
    (generateAnalyticsForUser 0 0 0
      (List.replicate 5 sampleCompleted)).isSome = true :=
  (generateAnalyticsForUser_threshold 0 0 0
    (List.replicate 5 sampleCompleted)).1.mpr (by decide)

/-! ## `validate_naming.py`

The regex `^[a-z]+_[a-z_]+_(api|bot|worker|gateway|stream|scheduler|cli|webhook)$`
(line 21) is implemented as an executable matcher over the character list:
a name matches exactly when it factors as `A ++ "_" ++ B ++ "_" ++ T` with
`A` a nonempty run of lowercase letters, `B` a nonempty run over
`[a-z_]`, and `T` one of the service type suffixes.  The per-name
violation tests of `check_docker_compose_files` (lines 67-78),
`check_nginx_configs` (lines 104-113) and `check_makefile` (lines 137-142)
are embedded over the already-extracted candidate names, and `main`
(lines 147-201) over the three lists of candidate names. -/

/-- A lowercase ASCII letter (`[a-z]`). -/
def isLowerAlpha (c : Char) : Bool := decide ('a' ≤ c) && decide (c ≤ 'z')

/-- A character of the class `[a-z_]`. -/
def isNameChar (c : Char) : Bool := isLowerAlpha c || c == '_'

/-- Matches `[a-z_]+$`: a nonempty tail over `[a-z_]`. -/
def matchTypeTail (cs : List Char) : Bool :=
  !cs.isEmpty && cs.all isNameChar

/-- After one or more leading lowercase letters were consumed: either
consume more, or consume the separating `'_'` and finish with
`[a-z_]+`. -/
def matchAfterFirstSegment : List Char → Bool
  | [] => false
  | c :: rest =>
    if c == '_' then matchTypeTail rest
    else isLowerAlpha c && matchAfterFirstSegment rest

/-- Matches `^[a-z]+_[a-z_]+$` — the stem of the service-name regex before the
final `_{type}` suffix. -/
def matchStem : List Char → Bool
  | [] => false
  | c :: rest => isLowerAlpha c && matchAfterFirstSegment rest

/-- The service type alternatives of `VALID_SERVICE_PATTERN` (line 21). -/
def serviceTypeSuffixes : List String :=
  ["api", "bot", "worker", "gateway", "stream", "scheduler", "cli",
   "webhook"]

/-- Set `INFRASTRUCTURE_SERVICES` (lines 24-28). -/
def infrastructureServices : List String :=
  ["nginx", "postgres", "mongodb", "redis", "rabbitmq", "prometheus",
   "grafana", "jaeger", "elasticsearch", "logstash", "kibana", "filebeat",
   "adminer"]

/-- Implements `VALID_SERVICE_PATTERN.match(name)` over the character list: the name
ends in `_t` for some service type `t` and the part before it matches
`^[a-z]+_[a-z_]+$`. -/
def validServicePatternList (cs : List Char) : Bool :=
  serviceTypeSuffixes.any fun t =>
    decide (('_' :: t.toList).length ≤ cs.length) &&
    (cs.drop (cs.length - ('_' :: t.toList).length) == '_' :: t.toList) &&
    matchStem (cs.take (cs.length - ('_' :: t.toList).length))

/-- Implements `VALID_SERVICE_PATTERN.match(name)` (validate_naming.py line 21). -/
def validServicePattern (name : String) : Bool :=
  validServicePatternList name.toList

/-- Implements `name.endswith(t)` over character lists. -/
def stringEndsWith (name t : String) : Bool :=
  decide (t.toList.length ≤ name.toList.length) &&
  (name.toList.drop (name.toList.length - t.toList.length) == t.toList)

/-- Whether `check_docker_compose_files` flags a parsed service name
(lines 73-78): not an infrastructure service and not matching the
pattern. -/
def checkComposeService (service : String) : Bool :=
  !(infrastructureServices.contains service) &&
  !(validServicePattern service)

/-- Whether `check_nginx_configs` flags an upstream name (lines 108-113):
not an infrastructure service, not ending in `_management`, and not
matching the pattern. -/
def checkNginxUpstream (upstream : String) : Bool :=
  !(infrastructureServices.contains upstream ||
    stringEndsWith upstream ("_management")) &&
  !(validServicePattern upstream)

/-- Whether `check_makefile` flags a (stripped) service reference
(lines 140-142): nonempty and not matching the pattern.  Note there is no
infrastructure exemption on this path. -/
def checkMakefileService (service : String) : Bool :=
  !(service == "") && !(validServicePattern service)

/-- Implements `main` (lines 147-201) over the extracted candidate names: collect the
violations of the three checks and return exit code 1 when any exist,
0 otherwise. -/
def validateNamingMain (composeNames nginxNames makefileNames :
    List String) : Int :=
  let allErrors := composeNames.filter checkComposeService ++
    nginxNames.filter checkNginxUpstream ++
    makefileNames.filter checkMakefileService
  if allErrors.isEmpty then 0 else 1

theorem matchTypeTail_iff (cs : List Char) :
    matchTypeTail cs = true ↔
      cs ≠ [] ∧ ∀ c ∈ cs, isNameChar c = true := by
  unfold matchTypeTail
  rw [Bool.and_eq_true, List.all_eq_true]
  constructor
  · rintro ⟨h1, h2⟩
    refine ⟨?_, h2⟩
    intro hc
    subst hc
    simp at h1
  · rintro ⟨h1, h2⟩
    refine ⟨?_, h2⟩
    cases cs with
    | nil => exact absurd rfl h1
    | cons a rest => simp

theorem matchAfterFirstSegment_iff (cs : List Char) :
    matchAfterFirstSegment cs = true ↔
      ∃ a b : List Char, cs = a ++ '_' :: b ∧
        (∀ c ∈ a, isLowerAlpha c = true) ∧ b ≠ [] ∧
        (∀ c ∈ b, isNameChar c = true) := by
  induction cs with
  | nil =>
    simp only [matchAfterFirstSegment, Bool.false_eq_true, false_iff]
    rintro ⟨a, b, h, -, -, -⟩
    cases a <;> simp at h
  | cons c rest ih =>
    by_cases hc : c = '_'
    · subst hc
      have he : matchAfterFirstSegment ('_' :: rest) = matchTypeTail rest :=
        rfl
      rw [he, matchTypeTail_iff]
      constructor
      · rintro ⟨hne, hall⟩
        exact ⟨[], rest, rfl, by simp, hne, hall⟩
      · rintro ⟨a, b, h, ha, hb, hball⟩
        cases a with
        | nil =>
          simp only [List.nil_append, List.cons.injEq, true_and] at h
          subst h
          exact ⟨hb, hball⟩
        | cons c2 a2 =>
          rw [List.cons_append] at h
          have h1 := (List.cons.injEq _ _ _ _ ▸ h)
          obtain ⟨hc2, -⟩ := List.cons.inj h
          have hl := ha c2 (List.mem_cons_self c2 a2)
          rw [← hc2] at hl
          exact absurd hl (by decide)
    · have hcb : (c == '_') = false := by
        simpa using hc
      have he : matchAfterFirstSegment (c :: rest) =
          (isLowerAlpha c && matchAfterFirstSegment rest) := by
        rw [matchAfterFirstSegment, hcb]
        simp
      rw [he, Bool.and_eq_true, ih]
      constructor
      · rintro ⟨hl, a2, b, h, ha2, hb, hball⟩
        refine ⟨c :: a2, b, by rw [List.cons_append, h], ?_, hb, hball⟩
        intro x hx
        rcases List.mem_cons.mp hx with rfl | hx2
        · exact hl
        · exact ha2 x hx2
      · rintro ⟨a, b, h, ha, hb, hball⟩
        cases a with
        | nil =>
          simp only [List.nil_append, List.cons.injEq] at h
          exact absurd h.1 hc
        | cons c2 a2 =>
          rw [List.cons_append] at h
          obtain ⟨hc2, hr⟩ := List.cons.inj h
          refine ⟨?_, a2, b, hr, ?_, hb, hball⟩
          · have := ha c2 (List.mem_cons_self c2 a2)
            rw [← hc2] at this
            exact this
          · intro x hx
            exact ha x (List.mem_cons_of_mem c2 hx)

theorem matchStem_iff (cs : List Char) :
    matchStem cs = true ↔
      ∃ a b : List Char, cs = a ++ '_' :: b ∧ a ≠ [] ∧
        (∀ c ∈ a, isLowerAlpha c = true) ∧ b ≠ [] ∧
        (∀ c ∈ b, isNameChar c = true) := by
  cases cs with
  | nil =>
    simp only [matchStem, Bool.false_eq_true, false_iff]
    rintro ⟨a, b, h, -, -, -, -⟩
    cases a <;> simp at h
  | cons c rest =>
    have he : matchStem (c :: rest) =
        (isLowerAlpha c && matchAfterFirstSegment rest) := rfl
    rw [he, Bool.and_eq_true, matchAfterFirstSegment_iff]
    constructor
    · rintro ⟨hl, a2, b, h, ha2, hb, hball⟩
      refine ⟨c :: a2, b, by rw [List.cons_append, h], by simp, ?_, hb,
        hball⟩
      intro x hx
      rcases List.mem_cons.mp hx with rfl | hx2
      · exact hl
      · exact ha2 x hx2
    · rintro ⟨a, b, h, hane, ha, hb, hball⟩
      cases a with
      | nil => exact absurd rfl hane
      | cons c2 a2 =>
        rw [List.cons_append] at h
        obtain ⟨hc2, hr⟩ := List.cons.inj h
        refine ⟨?_, a2, b, hr, ?_, hb, hball⟩
        · have := ha c2 (List.mem_cons_self c2 a2)
          rw [← hc2] at this
          exact this
        · intro x hx
          exact ha x (List.mem_cons_of_mem c2 hx)

theorem suffix_split_iff (cs suf : List Char) :
    (decide (suf.length ≤ cs.length) &&
      (cs.drop (cs.length - suf.length) == suf) &&
      matchStem (cs.take (cs.length - suf.length))) = true ↔
    ∃ p : List Char, cs = p ++ suf ∧ matchStem p = true := by
  constructor
  · intro h
    rw [Bool.and_eq_true, Bool.and_eq_true] at h
    obtain ⟨⟨-, hdrop⟩, hstem⟩ := h
    have hdrop2 : cs.drop (cs.length - suf.length) = suf := by
      simpa using hdrop
    refine ⟨cs.take (cs.length - suf.length), ?_, hstem⟩
    conv_lhs => rw [← List.take_append_drop (cs.length - suf.length) cs]
    rw [hdrop2]
  · rintro ⟨p, rfl, hstem⟩
    have hlen : suf.length ≤ (p ++ suf).length := by simp
    have hdt : (p ++ suf).length - suf.length = p.length := by simp
    rw [Bool.and_eq_true, Bool.and_eq_true, hdt, List.drop_left,
      List.take_left]
    refine ⟨⟨?_, ?_⟩, hstem⟩
    · simpa using hlen
    · simp

/-- The executable matcher agrees with the regex
`^[a-z]+_[a-z_]+_(api|...|webhook)$`: a name matches exactly when it
factors as `A_B_T` with `A` a nonempty lowercase run, `B` a nonempty run
over `[a-z_]` and `T` a service type suffix. -/
theorem validServicePattern_iff (name : String) :
    validServicePattern name = true ↔
      ∃ (t : String) (a b : List Char), t ∈ serviceTypeSuffixes ∧
        name.toList = a ++ '_' :: (b ++ '_' :: t.toList) ∧
        a ≠ [] ∧ (∀ c ∈ a, isLowerAlpha c = true) ∧
        b ≠ [] ∧ (∀ c ∈ b, isNameChar c = true) := by
  unfold validServicePattern validServicePatternList
  rw [List.any_eq_true]
  constructor
  · rintro ⟨t, ht, hmatch⟩
    obtain ⟨p, hp, hstem⟩ :=
      (suffix_split_iff name.toList ('_' :: t.toList)).mp hmatch
    obtain ⟨a, b, hpe, hane, ha, hb, hball⟩ := (matchStem_iff p).mp hstem
    refine ⟨t, a, b, ht, ?_, hane, ha, hb, hball⟩
    rw [hp, hpe, List.append_assoc]
    rfl
  · rintro ⟨t, a, b, ht, he, hane, ha, hb, hball⟩
    refine ⟨t, ht, ?_⟩
    apply (suffix_split_iff name.toList ('_' :: t.toList)).mpr
    refine ⟨a ++ '_' :: b, ?_,
      (matchStem_iff _).mpr ⟨a, b, rfl, hane, ha, hb, hball⟩⟩
    rw [he, List.append_assoc]
    rfl

theorem contains_iff_mem_strings (l : List String) (n : String) :
    l.contains n = true ↔ n ∈ l := by
  simp [List.contains, List.elem_iff]

/-- C6 (amended): Per-name behaviour of the naming lint:
`validServicePattern` implements the regex exactly (factorisation
`A_B_T`); a docker-compose service name is flagged iff it is neither an
infrastructure service nor matches the pattern; an nginx upstream is
flagged iff it is not an infrastructure service, does not end in
`_management`, and does not match the pattern; a Makefile service
reference is flagged iff it is nonempty and does not match the pattern —
with no infrastructure exemption on the Makefile path; and `main` exits
with 1 exactly when at least one name is flagged and 0 exactly when none
is. -/
theorem validateNaming_spec :
    (∀ name : String, validServicePattern name = true ↔
      ∃ (t : String) (a b : List Char), t ∈ serviceTypeSuffixes ∧
        name.toList = a ++ '_' :: (b ++ '_' :: t.toList) ∧
        a ≠ [] ∧ (∀ c ∈ a, isLowerAlpha c = true) ∧
        b ≠ [] ∧ (∀ c ∈ b, isNameChar c = true)) ∧
    (∀ n : String, checkComposeService n = true ↔
      n ∉ infrastructureServices ∧ validServicePattern n = false) ∧
    (∀ n : String, checkNginxUpstream n = true ↔
      ¬(n ∈ infrastructureServices ∨
        stringEndsWith n ("_management") = true) ∧
      validServicePattern n = false) ∧
    (∀ n : String, checkMakefileService n = true ↔
      n ≠ "" ∧ validServicePattern n = false) ∧
    (∀ composeNames nginxNames makefileNames : List String,
      (validateNamingMain composeNames nginxNames makefileNames = 1 ↔
        ((∃ n ∈ composeNames, checkComposeService n = true) ∨
         (∃ n ∈ nginxNames, checkNginxUpstream n = true) ∨
         (∃ n ∈ makefileNames, checkMakefileService n = true))) ∧
      (validateNamingMain composeNames nginxNames makefileNames = 0 ↔
        ¬((∃ n ∈ composeNames, checkComposeService n = true) ∨
          (∃ n ∈ nginxNames, checkNginxUpstream n = true) ∨
          (∃ n ∈ makefileNames, checkMakefileService n = true)))) := by
  refine ⟨validServicePattern_iff, ?_, ?_, ?_, ?_⟩
  · intro n
    unfold checkComposeService
    rw [Bool.and_eq_true, Bool.not_eq_true', Bool.not_eq_true',
      ← Bool.not_eq_true (infrastructureServices.contains n),
      contains_iff_mem_strings]
  · intro n
    unfold checkNginxUpstream
    rw [Bool.and_eq_true, Bool.not_eq_true', Bool.not_eq_true',
      Bool.or_eq_false_iff]
    constructor
    · rintro ⟨⟨h1, h2⟩, h3⟩
      refine ⟨?_, h3⟩
      rintro (hm | he)
      · rw [(contains_iff_mem_strings infrastructureServices n).mpr hm]
          at h1
        exact absurd h1 (by decide)
      · rw [he] at h2
        exact absurd h2 (by decide)
    · rintro ⟨h12, h3⟩
      refine ⟨⟨?_, ?_⟩, h3⟩
      · rcases hcb : infrastructureServices.contains n with - | -
        · rfl
        · exact absurd (Or.inl
            ((contains_iff_mem_strings infrastructureServices n).mp hcb))
            h12
      · rcases heb : stringEndsWith n ("_management") with - | -
        · rfl
        · exact absurd (Or.inr heb) h12
  · intro n
    unfold checkMakefileService
    rw [Bool.and_eq_true, Bool.not_eq_true', Bool.not_eq_true',
      beq_eq_false_iff_ne]
  · intro composeNames nginxNames makefileNames
    unfold validateNamingMain
    by_cases he : (composeNames.filter checkComposeService ++
        nginxNames.filter checkNginxUpstream ++
        makefileNames.filter checkMakefileService) = []
    · rw [he]
      simp only [List.isEmpty_nil, if_true]
      have hnone : ¬((∃ n ∈ composeNames, checkComposeService n = true) ∨
          (∃ n ∈ nginxNames, checkNginxUpstream n = true) ∨
          (∃ n ∈ makefileNames, checkMakefileService n = true)) := by
        rw [List.append_eq_nil, List.append_eq_nil] at he
        obtain ⟨⟨h1, h2⟩, h3⟩ := he
        rw [List.filter_eq_nil_iff] at h1 h2 h3
        rintro (⟨n, hn, hc⟩ | ⟨n, hn, hc⟩ | ⟨n, hn, hc⟩)
        · exact h1 n hn hc
        · exact h2 n hn hc
        · exact h3 n hn hc
      constructor
      · constructor
        · intro h; exact absurd h (by decide)
        · intro h; exact absurd h hnone
      · constructor
        · intro _; exact hnone
        · intro _; trivial
    · rw [if_neg (by simpa [List.isEmpty_iff] using he)]
      have hsome : (∃ n ∈ composeNames, checkComposeService n = true) ∨
          (∃ n ∈ nginxNames, checkNginxUpstream n = true) ∨
          (∃ n ∈ makefileNames, checkMakefileService n = true) := by
        rcases List.exists_mem_of_ne_nil _ he with ⟨x, hx⟩
        rcases List.mem_append.mp hx with hx2 | hx3
        · rcases List.mem_append.mp hx2 with hx4 | hx5
          · obtain ⟨hm, hp⟩ := List.mem_filter.mp hx4
            exact Or.inl ⟨x, hm, hp⟩
          · obtain ⟨hm, hp⟩ := List.mem_filter.mp hx5
            exact Or.inr (Or.inl ⟨x, hm, hp⟩)
        · obtain ⟨hm, hp⟩ := List.mem_filter.mp hx3
          exact Or.inr (Or.inr ⟨x, hm, hp⟩)
      constructor
      · constructor
        · intro _; exact hsome
        · intro _; trivial
      · constructor
        · intro h; exact absurd h (by decide)
        · intro h; exact absurd hsome h

/-- C6 (counterexample): `check_makefile` applies no infrastructure
exemption: the infrastructure service name `"redis"` (which does not match
the pattern) is flagged as a Makefile violation, contradicting the
claimed "if and only if the name is not in INFRASTRUCTURE_SERVICES ... "
condition, under which it would be exempt (as it is on the docker-compose
path). -/
theorem validateNaming_makefile_counterexample :
    checkMakefileService ("redis") = true ∧
    "redis" ∈ infrastructureServices ∧
    validServicePattern ("redis") = false ∧
    checkComposeService ("redis") = false := by
  refine ⟨by decide, by decide, by decide, by decide⟩
